/-
Verification of the EasyNixie CircuitPython driver (EasyNixie.py).

Shallow embedding conventions:
  * Python ints are modelled as `ℤ` (digits, colors, dimming, indices);
    shift-register byte values, built by `|||`/`&&&` on small nonnegative
    literals, are modelled as `ℕ`.
  * The fallible part of the encoding — Python's `1 << number`, which raises
    `ValueError` for a negative shift count — is modelled with `Option`:
    `none` stands for the raised exception.
  * Hardware effects (shifting a byte, setting the PWM duty cycle, pulsing
    the latch) are recorded as a trace of `Event`s; `update_display` returns
    `Option (List Event)`, `none` when the Python code would raise.
  * `int((dimming / 255.0) * 65535)` is modelled in exact arithmetic as
    `dimming * 65535 / 255` over `ℤ` (truncating division).
-/
import Mathlib

namespace EasyNixieSpec

/-- Color constants, matching the Arduino library exactly (EasyNixie.py lines 17-23). -/
def EASY_NIXIE_BLUE : ℤ := 1

def EASY_NIXIE_GREEN : ℤ := 2

def EASY_NIXIE_RED : ℤ := 3

def EASY_NIXIE_WHITE : ℤ := 4

def EASY_NIXIE_RuB : ℤ := 5

def EASY_NIXIE_RuG : ℤ := 6

def EASY_NIXIE_BuG : ℤ := 7

/-- One entry of `display_buffer`: the tuple
`(digit, color, voltage, comma, dimming)` stored per tube (line 38). -/
structure Tube where
  number : ℤ
  color : ℤ
  voltage : Bool
  comma : Bool
  dimming : ℤ
  deriving Repr, DecidableEq

/-- The driver state: `num_tubes`, the per-tube buffer, and the
`dimming_available` flag set by the constructor's PWM acquisition attempt. -/
structure EasyNixie where
  numTubes : ℕ
  displayBuffer : List Tube
  dimmingAvailable : Bool
  deriving Repr, DecidableEq

/-- The constructor (lines 26-65): `display_buffer` is `num_tubes` copies of
`(10, EASY_NIXIE_WHITE, True, False, 0)`; whether PWM succeeded is a
construction-time fact, passed in as a parameter here. -/
def EasyNixie.init (numTubes : ℕ) (dimmingAvailable : Bool) : EasyNixie :=
  { numTubes := numTubes
    displayBuffer := List.replicate numTubes ⟨10, EASY_NIXIE_WHITE, true, false, 0⟩
    dimmingAvailable := dimmingAvailable }

/-- `int((dimming / 255.0) * 65535)` (lines 104, 173) in exact arithmetic. -/
def dutyCycle (dimming : ℤ) : ℤ := dimming * 65535 / 255

/-- The color section of `_send_tube_data` (lines 192-205): a chain of
independent `if color == …: data &= mask` statements, in source order. -/
def applyColor (color : ℤ) (b : ℕ) : ℕ :=
  let d := if color = EASY_NIXIE_RED then b &&& 0b11101111 else b
  let d := if color = EASY_NIXIE_GREEN then d &&& 0b11110111 else d
  let d := if color = EASY_NIXIE_BLUE then d &&& 0b11111011 else d
  let d := if color = EASY_NIXIE_WHITE then d &&& 0b11100011 else d
  let d := if color = EASY_NIXIE_RuB then d &&& 0b11101011 else d
  let d := if color = EASY_NIXIE_RuG then d &&& 0b11100111 else d
  if color = EASY_NIXIE_BuG then d &&& 0b11110011 else d

/-- The base pattern plus digit-8/digit-9 flag bits of `_send_tube_data`
(lines 185-190). -/
def controlBase (number : ℤ) : ℕ :=
  let d := 0b00011100
  let d := if number = 8 then d ||| 0b00000001 else d
  if number = 9 then d ||| 0b00000010 else d

/-- `second_shift_register_data` as built by `_send_tube_data`
(lines 185-210): base pattern, digit flags, color bit-clears, then the
voltage and comma bits. -/
def secondShiftRegisterData (number color : ℤ) (voltage comma : Bool) : ℕ :=
  let d := applyColor color (controlBase number)
  let d := if voltage then d ||| 0b00100000 else d
  if comma then d ||| 0b01000000 else d

/-- `first_shift_register_data` (lines 214-217): `1 << number` for
`number < 8`, else `0`.  Python raises `ValueError` on a negative shift
count, modelled as `none`. -/
def firstShiftRegisterData (number : ℤ) : Option ℕ :=
  if number < 8 then
    if number < 0 then none else some (1 <<< number.toNat)
  else
    some 0

/-- One observable hardware effect during an update. -/
inductive Event where
  | setDuty (d : ℤ)
  | shift (b : ℕ)
  | latch
  deriving Repr, DecidableEq

/-- `_send_tube_data` (lines 182-219): shift the control byte, then the
digit byte (whose computation can raise, hence the `Option`). -/
def sendTubeData (t : Tube) : Option (List Event) :=
  (firstShiftRegisterData t.number).map fun fb =>
    [Event.shift (secondShiftRegisterData t.number t.color t.voltage t.comma),
     Event.shift fb]

/-- The body of `update_display`'s loop (lines 168-177), which runs
`i = num_tubes-1, …, 0`: `updateLoop st i` performs the iterations for
indices `i-1` down to `0`, so `updateLoop st st.numTubes` is the whole loop.
Each iteration reads `display_buffer[i]` (out of range is `none`), sets the
PWM duty cycle from that tube's `dimming` when `dimming_available`, then
shifts the tube's two bytes. -/
def updateLoop (st : EasyNixie) : ℕ → Option (List Event)
  | 0 => some []
  | i + 1 =>
    st.displayBuffer[i]?.bind fun t =>
      (sendTubeData t).bind fun sent =>
        (updateLoop st i).bind fun rest =>
          some ((if st.dimmingAvailable then [Event.setDuty (dutyCycle t.dimming)] else [])
                ++ sent ++ rest)

/-- `update_display` (lines 162-180): the loop over all tubes followed by a
single `latch()`. -/
def updateDisplay (st : EasyNixie) : Option (List Event) :=
  (updateLoop st st.numTubes).map (· ++ [Event.latch])

/-- `set_tube` (lines 147-160): store the tuple if `0 <= tube_index <
num_tubes`, otherwise do nothing. -/
def setTube (st : EasyNixie) (tubeIndex number color : ℤ) (voltage comma : Bool)
    (dimming : ℤ) : EasyNixie :=
  if 0 ≤ tubeIndex ∧ tubeIndex < (st.numTubes : ℤ) then
    { st with displayBuffer :=
        st.displayBuffer.set tubeIndex.toNat ⟨number, color, voltage, comma, dimming⟩ }
  else
    st

/-- Decimal digits of `m`, least significant first, with explicit fuel so the
definition reduces in the kernel.  `fuel ≥ m` suffices. -/
def revDigitsAux : ℕ → ℕ → List ℕ
  | 0, _ => []
  | _ + 1, 0 => []
  | fuel + 1, m + 1 => ((m + 1) % 10) :: revDigitsAux fuel ((m + 1) / 10)

/-- The digit list of `str(m)` for `m : ℕ`, most significant first
(`str(0) = "0"` has one digit). -/
def numStr (m : ℕ) : List ℕ :=
  if m = 0 then [0] else (revDigitsAux m m).reverse

/-- The blank/clear entry written by `set_number`'s clearing loop (line 239). -/
def blankTube (color dimming : ℤ) : Tube := ⟨10, color, true, false, dimming⟩

/-- A digit entry written by `set_number`'s fill loop (line 245). -/
def digitTube (d : ℕ) (color dimming : ℤ) : Tube := ⟨(d : ℤ), color, true, false, dimming⟩

/-- Body of `set_number`'s clearing loop (lines 238-239):
`display_buffer[i] = (10, color, True, False, dimming)`. -/
def clearStep (color dimming : ℤ) (b : List Tube) (i : ℕ) : List Tube :=
  b.set i (blankTube color dimming)

/-- Body of `set_number`'s fill loop (lines 242-245): for the `i`-th
character (value `d`) of the reversed digit string, write to
`tube_pos = num_tubes - 1 - i` when that position is nonnegative — every
character of `str(abs(n))` satisfies `isdigit()`, so that guard is always
true and the digits are carried as `ℕ < 10` directly. -/
def fillStep (n : ℕ) (color dimming : ℤ) (b : List Tube) (p : ℕ × ℕ) : List Tube :=
  let pos : ℤ := (n : ℤ) - 1 - (p.1 : ℤ)
  if 0 ≤ pos then b.set pos.toNat (digitTube p.2 color dimming) else b

/-- Body of `set_number`'s leading-zeros loop (lines 248-251): a still-blank
tube at index `i` becomes digit 0. -/
def lzStep (color dimming : ℤ) (b : List Tube) (i : ℕ) : List Tube :=
  match b[i]? with
  | some t => if t.number = 10 then b.set i (digitTube 0 color dimming) else b
  | none => b

/-- `set_number` (lines 221-251): take the decimal string of `abs(number)`,
clear the whole buffer to blank, fill tubes right to left, then, if
`leading_zeros`, set still-blank tubes at indices
`0, …, num_tubes - len(num_str) - 1` to digit 0. -/
def setNumber (st : EasyNixie) (number : ℤ) (color : ℤ) (leadingZeros : Bool)
    (dimming : ℤ) : EasyNixie :=
  let s := numStr number.natAbs
  let buf := (List.range st.numTubes).foldl (clearStep color dimming) st.displayBuffer
  let buf := s.reverse.enum.foldl (fillStep st.numTubes color dimming) buf
  let buf := if leadingZeros then
      (List.range (st.numTubes - s.length)).foldl (lzStep color dimming) buf
    else buf
  { st with displayBuffer := buf }

/-- The digit byte as a total function, meaningful for nonnegative digits:
`1 << number` for `number < 8`, else `0`. -/
def digitByteT (number : ℤ) : ℕ :=
  if number < 8 then 1 <<< number.toNat else 0

/-- The events one loop iteration of `update_display` emits for tube `t`:
the PWM duty-cycle write (only when dimming is available), then the control
byte, then the digit byte. -/
def tubeEvents (avail : Bool) (t : Tube) : List Event :=
  (if avail then [Event.setDuty (dutyCycle t.dimming)] else [])
    ++ [Event.shift (secondShiftRegisterData t.number t.color t.voltage t.comma),
        Event.shift (digitByteT t.number)]

/-- Accumulator step for scanning a trace for its last duty-cycle write. -/
def dutyStep (acc : Option ℤ) (e : Event) : Option ℤ :=
  match e with
  | Event.setDuty d => some d
  | _ => acc

/-- The PWM duty cycle left in effect by a trace: the argument of its last
`setDuty` event, if any. -/
def lastSetDuty (evs : List Event) : Option ℤ :=
  evs.foldl dutyStep none

/-! ### Claim C1 -/

/-- C1 (counterexample): on a 2-tube chain, after `set_number(42,
leading_zeros=False)` the buffer does NOT hold digit 2 at index 0 and digit 4
at index 1, refuting the claim as stated. -/
theorem setNumber_42_index0_digit2_false :
    ¬ ((setNumber (EasyNixie.init 2 true) 42 EASY_NIXIE_WHITE false 255).displayBuffer.map
        Tube.number = [2, 4]) := by
  decide

/-- C1 (amended): on a 2-tube chain, after `set_number(42,
leading_zeros=False)` the tube at index 0 buffers digit 4 and the tube at
index 1 buffers digit 2: `set_number` places the most significant digit at
index 0, so under the data model's labelling (index 0 = rightmost) the
rightmost tube buffers digit 4, not digit 2. -/
theorem setNumber_42_buffers :
    (setNumber (EasyNixie.init 2 true) 42 EASY_NIXIE_WHITE false 255).displayBuffer =
      [digitTube 4 EASY_NIXIE_WHITE 255, digitTube 2 EASY_NIXIE_WHITE 255] := by
  decide

/-! ### Claim C5 -/

/-- C5: for every `tube_index` outside `[0, num_tubes)` — negative indices
included — and any digit/color/voltage/comma/brightness arguments,
`set_tube` leaves the driver state (in particular the display buffer)
completely unchanged; `setTube` is a total function, so no error is
raised. -/
theorem setTube_out_of_range (st : EasyNixie) (tubeIndex number color : ℤ)
    (voltage comma : Bool) (dimming : ℤ)
    (h : ¬ (0 ≤ tubeIndex ∧ tubeIndex < (st.numTubes : ℤ))) :
    setTube st tubeIndex number color voltage comma dimming = st := by
  unfold setTube
  rw [if_neg h]

/-- C5 witness: a negative index on a concrete 2-tube state is ignored. -/
theorem setTube_out_of_range_witness :
    setTube (EasyNixie.init 2 true) (-1) 3 EASY_NIXIE_RED true false 255 =
      EasyNixie.init 2 true :=
  setTube_out_of_range (EasyNixie.init 2 true) (-1) 3 EASY_NIXIE_RED true false 255
    (by decide)

/-! ### Claim C9 -/

/-- C9: when the decimal digit count of `abs(number)` is at least
`num_tubes`, `set_number` with `leading_zeros=True` produces exactly the same
state as with `leading_zeros=False`: the leading-zeros loop runs over
`range(num_tubes - len(num_str))`, which is empty. -/
theorem setNumber_leadingZeros_irrelevant (st : EasyNixie) (number color dimming : ℤ)
    (h : st.numTubes ≤ (numStr number.natAbs).length) :
    setNumber st number color true dimming = setNumber st number color false dimming := by
  unfold setNumber
  simp only [Nat.sub_eq_zero_of_le h]
  rfl

/-- C9 witness: 137 on a 2-tube chain (3 digits ≥ 2 tubes). -/
theorem setNumber_leadingZeros_irrelevant_witness :
    setNumber (EasyNixie.init 2 true) 137 EASY_NIXIE_WHITE true 128 =
      setNumber (EasyNixie.init 2 true) 137 EASY_NIXIE_WHITE false 128 :=
  setNumber_leadingZeros_irrelevant (EasyNixie.init 2 true) 137 EASY_NIXIE_WHITE 128
    (by decide)

/-! ### Helper lemmas on the control-byte encoding -/

/-- The base-plus-digit-flags value is one of `28`, `29`, `30`. -/
lemma controlBase_mem (n : ℤ) :
    controlBase n = 28 ∨ controlBase n = 29 ∨ controlBase n = 30 := by
  unfold controlBase
  split_ifs <;> first | decide | omega

/-- A color value outside the seven defined constants matches none of the
`if color == …` tests, so no bit-clear mask is applied. -/
lemma applyColor_out (c : ℤ) (h : c < 1 ∨ 7 < c) (b : ℕ) : applyColor c b = b := by
  have h1 : ¬ (c = EASY_NIXIE_BLUE) := by simp only [EASY_NIXIE_BLUE]; omega
  have h2 : ¬ (c = EASY_NIXIE_GREEN) := by simp only [EASY_NIXIE_GREEN]; omega
  have h3 : ¬ (c = EASY_NIXIE_RED) := by simp only [EASY_NIXIE_RED]; omega
  have h4 : ¬ (c = EASY_NIXIE_WHITE) := by simp only [EASY_NIXIE_WHITE]; omega
  have h5 : ¬ (c = EASY_NIXIE_RuB) := by simp only [EASY_NIXIE_RuB]; omega
  have h6 : ¬ (c = EASY_NIXIE_RuG) := by simp only [EASY_NIXIE_RuG]; omega
  have h7 : ¬ (c = EASY_NIXIE_BuG) := by simp only [EASY_NIXIE_BuG]; omega
  simp only [applyColor, if_neg h1, if_neg h2, if_neg h3, if_neg h4, if_neg h5,
    if_neg h6, if_neg h7]

/-- One `if color == …: d &= mask` step keeps any bit that the mask has
set. -/
lemma ite_land_testBit (p : Prop) [Decidable p] (b m i : ℕ)
    (hm : m.testBit i = true) :
    (if p then b &&& m else b).testBit i = b.testBit i := by
  split_ifs with hp
  · rw [Nat.testBit_land, hm, Bool.and_true]
  · rfl

/-- Every color mask has bits 0 and 1 set, so the color chain leaves the two
digit-flag bits untouched. -/
lemma applyColor_testBit_lt_two (c : ℤ) (b : ℕ) (i : ℕ) (hi : i < 2) :
    (applyColor c b).testBit i = b.testBit i := by
  interval_cases i <;>
    · simp only [applyColor]
      rw [ite_land_testBit _ _ _ _ (by decide), ite_land_testBit _ _ _ _ (by decide),
        ite_land_testBit _ _ _ _ (by decide), ite_land_testBit _ _ _ _ (by decide),
        ite_land_testBit _ _ _ _ (by decide), ite_land_testBit _ _ _ _ (by decide),
        ite_land_testBit _ _ _ _ (by decide)]

/-- Bit 0 of the base-plus-flags value is set exactly for digit 8. -/
lemma controlBase_testBit_zero (n : ℤ) : ((controlBase n).testBit 0 = true) ↔ n = 8 := by
  by_cases h8 : n = 8
  · subst h8; decide
  · by_cases h9 : n = 9
    · subst h9; decide
    · simp only [controlBase, if_neg h8, if_neg h9]
      exact iff_of_false (by decide) h8

/-- Bit 1 of the base-plus-flags value is set exactly for digit 9. -/
lemma controlBase_testBit_one (n : ℤ) : ((controlBase n).testBit 1 = true) ↔ n = 9 := by
  by_cases h8 : n = 8
  · subst h8; decide
  · by_cases h9 : n = 9
    · subst h9; decide
    · simp only [controlBase, if_neg h8, if_neg h9]
      exact iff_of_false (by decide) h9

/-- The voltage and comma bits (5 and 6) do not touch bits 0 and 1 either,
so those bits of the finished control byte come from `controlBase` alone. -/
lemma secondSSR_testBit_lt_two (n c : ℤ) (v k : Bool) (i : ℕ) (hi : i < 2) :
    (secondShiftRegisterData n c v k).testBit i = (controlBase n).testBit i := by
  have hac := applyColor_testBit_lt_two c (controlBase n) i hi
  have h32 : (32 : ℕ).testBit i = false := by interval_cases i <;> decide
  have h64 : (64 : ℕ).testBit i = false := by interval_cases i <;> decide
  simp only [secondShiftRegisterData]
  cases v <;> cases k <;>
    simp [Nat.testBit_lor, hac, h32, h64]

/-! ### Claim C3 -/

/-- C3: for a digit in `[0,7]` the digit byte is `1 << digit` — exactly one
bit set, at position `digit`; for digit 8, digit 9 and blank (10) the digit
byte is `0`; and bit 0 of the control byte is set exactly when the digit is
8, bit 1 exactly when it is 9, for every color/voltage/comma. -/
theorem digit_encoding (n : ℤ) :
    (0 ≤ n → n ≤ 7 →
      firstShiftRegisterData n = some (1 <<< n.toNat) ∧
        ∀ i : ℕ, ((1 <<< n.toNat).testBit i = true ↔ i = n.toNat)) ∧
    ((n = 8 ∨ n = 9 ∨ n = 10) → firstShiftRegisterData n = some 0) ∧
    (∀ (c : ℤ) (v k : Bool),
      ((secondShiftRegisterData n c v k).testBit 0 = true ↔ n = 8) ∧
      ((secondShiftRegisterData n c v k).testBit 1 = true ↔ n = 9)) := by
  refine ⟨fun h0 h7 => ⟨?_, ?_⟩, ?_, fun c v k => ⟨?_, ?_⟩⟩
  · unfold firstShiftRegisterData
    rw [if_pos (by omega), if_neg (by omega)]
  · intro i
    rw [Nat.one_shiftLeft, Nat.testBit_two_pow]
    simp [eq_comm]
  · rintro (rfl | rfl | rfl) <;> decide
  · rw [secondSSR_testBit_lt_two n c v k 0 (by omega)]
    exact controlBase_testBit_zero n
  · rw [secondSSR_testBit_lt_two n c v k 1 (by omega)]
    exact controlBase_testBit_one n

/-- C3 witness: digit 5 in range gives digit byte `1 << 5`; and via the same
theorem at digit 8, the digit byte is `0`. -/
theorem digit_encoding_witness :
    firstShiftRegisterData 5 = some (1 <<< (5 : ℤ).toNat) ∧
      firstShiftRegisterData 8 = some 0 :=
  ⟨((digit_encoding 5).1 (by decide) (by decide)).1,
   (digit_encoding 8).2.1 (Or.inl rfl)⟩

/-! ### Claim C7 -/

/-- C7: the seven colors carry distinct bit-clear masks (shown by applying
them to the all-ones byte `255`), and two different colors applied with all
other fields equal always yield different control bytes. -/
theorem colors_injective (c1 c2 : ℤ) (h11 : 1 ≤ c1) (h17 : c1 ≤ 7)
    (h21 : 1 ≤ c2) (h27 : c2 ≤ 7) (hne : c1 ≠ c2) :
    applyColor c1 255 ≠ applyColor c2 255 ∧
      ∀ (n : ℤ) (v k : Bool),
        secondShiftRegisterData n c1 v k ≠ secondShiftRegisterData n c2 v k := by
  constructor
  · interval_cases c1 <;> interval_cases c2 <;> first | omega | decide
  · intro n v k
    rcases controlBase_mem n with hb | hb | hb <;>
      simp only [secondShiftRegisterData, hb] <;>
      interval_cases c1 <;> interval_cases c2 <;>
      first
        | omega
        | (cases v <;> cases k <;> decide)

/-- C7 witness: RED (3) versus GREEN (2) on digit 8, voltage on, no comma. -/
theorem colors_injective_witness :
    secondShiftRegisterData 8 3 true false ≠ secondShiftRegisterData 8 2 true false :=
  (colors_injective 3 2 (by decide) (by decide) (by decide) (by decide)
    (by decide)).2 8 true false

/-! ### Claim C10 -/

/-- C10: an undefined color value (below 1 or above 7) applies no bit-clear
mask — the three color bits (mask `28`) of the base pattern stay set — and
the resulting control byte differs from the byte produced by each of the
seven defined colors with the other fields held equal.  `applyColor` and
`secondShiftRegisterData` are total, so no error is raised. -/
theorem color_undefined (c : ℤ) (h : c < 1 ∨ 7 < c) :
    ∀ (n : ℤ) (v k : Bool),
      (secondShiftRegisterData n c v k &&& 28 = 28) ∧
      ∀ c', 1 ≤ c' → c' ≤ 7 →
        secondShiftRegisterData n c v k ≠ secondShiftRegisterData n c' v k := by
  intro n v k
  constructor
  · rcases controlBase_mem n with hb | hb | hb <;>
      simp only [secondShiftRegisterData, hb, applyColor_out c h] <;>
      cases v <;> cases k <;> decide
  · intro c' h1 h7
    rcases controlBase_mem n with hb | hb | hb <;>
      simp only [secondShiftRegisterData, hb, applyColor_out c h] <;>
      interval_cases c' <;> cases v <;> cases k <;> decide

/-- C10 witness: color 0 on digit 5 keeps all three color bits and differs
from WHITE (4). -/
theorem color_undefined_witness :
    (secondShiftRegisterData 5 0 true false &&& 28 = 28) ∧
      secondShiftRegisterData 5 0 true false ≠ secondShiftRegisterData 5 4 true false :=
  ⟨(color_undefined 0 (Or.inl (by decide)) 5 true false).1,
   (color_undefined 0 (Or.inl (by decide)) 5 true false).2 4 (by decide) (by decide)⟩

/-! ### Helper lemmas on the update trace -/

/-- Unfolding lemma for one iteration of the render loop. -/
lemma updateLoop_succ (st : EasyNixie) (i : ℕ) :
    updateLoop st (i + 1) =
      st.displayBuffer[i]?.bind fun t =>
        (sendTubeData t).bind fun sent =>
          (updateLoop st i).bind fun rest =>
            some ((if st.dimmingAvailable then [Event.setDuty (dutyCycle t.dimming)] else [])
                  ++ sent ++ rest) := rfl

/-- For a nonnegative digit the digit-byte computation succeeds and yields
`digitByteT`. -/
lemma firstSSR_eq_of_nonneg (n : ℤ) (h : 0 ≤ n) :
    firstShiftRegisterData n = some (digitByteT n) := by
  unfold firstShiftRegisterData digitByteT
  by_cases h8 : n < 8
  · rw [if_pos h8, if_neg (by omega), if_pos h8]
  · rw [if_neg h8, if_neg h8]

/-- The digit-byte computation raises exactly on negative digits. -/
lemma firstSSR_eq_none_iff (n : ℤ) : firstShiftRegisterData n = none ↔ n < 0 := by
  unfold firstShiftRegisterData
  by_cases h8 : n < 8
  · rw [if_pos h8]
    by_cases h0 : n < 0
    · rw [if_pos h0]; simp [h0]
    · rw [if_neg h0]; simp [h0]
  · rw [if_neg h8]
    simp
    omega

/-- `_send_tube_data` on a nonnegative digit: control byte then digit byte. -/
lemma sendTubeData_eq_of_nonneg (t : Tube) (h : 0 ≤ t.number) :
    sendTubeData t =
      some [Event.shift (secondShiftRegisterData t.number t.color t.voltage t.comma),
            Event.shift (digitByteT t.number)] := by
  unfold sendTubeData
  rw [firstSSR_eq_of_nonneg t.number h]
  rfl

/-- `_send_tube_data` raises exactly on negative digits. -/
lemma sendTubeData_eq_none_iff (t : Tube) : sendTubeData t = none ↔ t.number < 0 := by
  unfold sendTubeData
  rw [Option.map_eq_none']
  exact firstSSR_eq_none_iff t.number

/-- The first `i` iterations of the render loop (buffer indices `i-1` down
to `0`) produce exactly the per-tube event blocks of the reversed buffer
prefix, provided every digit is nonnegative. -/
lemma updateLoop_eq_of_nonneg (st : EasyNixie)
    (hnn : ∀ t ∈ st.displayBuffer, 0 ≤ t.number) :
    ∀ i, i ≤ st.displayBuffer.length →
      updateLoop st i =
        some ((st.displayBuffer.take i).reverse.flatMap (tubeEvents st.dimmingAvailable)) := by
  intro i
  induction i with
  | zero => intro _; rfl
  | succ i ih =>
    intro hle
    have hi : i < st.displayBuffer.length := by omega
    have ht : st.displayBuffer[i]? = some st.displayBuffer[i] := List.getElem?_eq_getElem hi
    have hmem : st.displayBuffer[i] ∈ st.displayBuffer := List.getElem_mem hi
    rw [updateLoop_succ, ht, Option.some_bind,
      sendTubeData_eq_of_nonneg _ (hnn _ hmem), Option.some_bind, ih (by omega),
      Option.some_bind, List.take_succ, ht]
    simp only [Option.toList_some, List.reverse_append, List.reverse_cons,
      List.reverse_nil, List.nil_append, List.singleton_append, List.flatMap_cons,
      tubeEvents, Option.some.injEq, List.append_assoc]

/-! ### Claim C4 -/

/-- C4: with every buffered digit nonnegative (the data model's digit
domain), `update_display` succeeds and its trace is exactly: for each tube
from index `num_tubes-1` down to `0` (the reversed buffer), the per-tube
block — duty write (when available), control byte, digit byte, in that
order — followed by a single latch event; the latch occurs nowhere else,
and the whole trace contains exactly one latch, at the very end. -/
theorem update_display_order (st : EasyNixie)
    (hlen : st.displayBuffer.length = st.numTubes)
    (hnn : ∀ t ∈ st.displayBuffer, 0 ≤ t.number) :
    updateDisplay st =
      some (st.displayBuffer.reverse.flatMap (tubeEvents st.dimmingAvailable)
            ++ [Event.latch]) ∧
    Event.latch ∉ st.displayBuffer.reverse.flatMap (tubeEvents st.dimmingAvailable) ∧
    (st.displayBuffer.reverse.flatMap (tubeEvents st.dimmingAvailable)
        ++ [Event.latch]).count Event.latch = 1 := by
  have htake : st.displayBuffer.take st.numTubes = st.displayBuffer := by
    rw [← hlen]
    exact List.take_length _
  have hnotin :
      Event.latch ∉ st.displayBuffer.reverse.flatMap (tubeEvents st.dimmingAvailable) := by
    intro hmem
    rw [List.mem_flatMap] at hmem
    obtain ⟨t, -, hmem⟩ := hmem
    unfold tubeEvents at hmem
    rcases st.dimmingAvailable <;> simp at hmem
  refine ⟨?_, hnotin, ?_⟩
  · unfold updateDisplay
    rw [updateLoop_eq_of_nonneg st hnn st.numTubes (by omega), htake]
    rfl
  · rw [List.count_append, List.count_eq_zero.mpr hnotin]
    rfl

/-- C4 witness: the order theorem applied to a freshly constructed 2-tube
chain. -/
theorem update_display_order_witness :
    updateDisplay (EasyNixie.init 2 true) =
      some ((EasyNixie.init 2 true).displayBuffer.reverse.flatMap (tubeEvents true)
            ++ [Event.latch]) :=
  (update_display_order (EasyNixie.init 2 true) (by decide) (by decide)).1

/-! ### Claim C2 -/

/-- Scanning with any accumulator: the result is the trace's own last duty
write, falling back to the accumulator. -/
lemma lastSetDuty_foldl (b : List Event) :
    ∀ acc : Option ℤ, b.foldl dutyStep acc = (lastSetDuty b).or acc := by
  induction b with
  | nil => intro acc; rfl
  | cons e tl ih =>
    intro acc
    show tl.foldl dutyStep (dutyStep acc e) = (lastSetDuty (e :: tl)).or acc
    have h2 : lastSetDuty (e :: tl) = tl.foldl dutyStep (dutyStep none e) := rfl
    rw [ih (dutyStep acc e), h2, ih (dutyStep none e)]
    cases e <;> cases hres : lastSetDuty tl <;> simp [dutyStep, Option.or]

/-- The last duty write of a concatenation: the right part wins when it has
one. -/
lemma lastSetDuty_append (a b : List Event) :
    lastSetDuty (a ++ b) = (lastSetDuty b).or (lastSetDuty a) := by
  unfold lastSetDuty
  rw [List.foldl_append]
  exact lastSetDuty_foldl b _

/-- After at least one successful loop iteration, the duty cycle in effect
is the one computed from tube index 0 — the iteration executed last. -/
lemma updateLoop_lastSetDuty (st : EasyNixie) (havail : st.dimmingAvailable = true)
    (t0 : Tube) (ht0 : st.displayBuffer[0]? = some t0) :
    ∀ i evs, updateLoop st i = some evs → 1 ≤ i →
      lastSetDuty evs = some (dutyCycle t0.dimming) := by
  intro i
  induction i with
  | zero => intro evs _ h1; omega
  | succ i ih =>
    intro evs hev _
    rw [updateLoop_succ] at hev
    rcases i with _ | i
    · rw [ht0, Option.some_bind] at hev
      rcases hfb : firstShiftRegisterData t0.number with _ | fb
      · rw [show sendTubeData t0 = none from by
            unfold sendTubeData; rw [hfb]; rfl] at hev
        simp at hev
      · rw [show sendTubeData t0 =
            some [Event.shift (secondShiftRegisterData t0.number t0.color t0.voltage t0.comma),
                  Event.shift fb] from by
            unfold sendTubeData; rw [hfb]; rfl,
          show updateLoop st 0 = some [] from rfl] at hev
        simp only [Option.some_bind, Option.some.injEq] at hev
        subst hev
        rw [havail]
        rfl
    · rcases hti : st.displayBuffer[i + 1]? with _ | t
      · rw [hti] at hev; simp at hev
      · rw [hti, Option.some_bind] at hev
        rcases hsend : sendTubeData t with _ | sent
        · rw [hsend] at hev; simp at hev
        · rw [hsend, Option.some_bind] at hev
          rcases hrest : updateLoop st (i + 1) with _ | rest
          · rw [hrest] at hev; simp at hev
          · rw [hrest, Option.some_bind, Option.some.injEq] at hev
            subst hev
            have hlast := ih rest hrest (by omega)
            rw [lastSetDuty_append, lastSetDuty_append, hlast]
            cases st.dimmingAvailable <;> simp [Option.or]

/-- C2: on a PWM-capable device (`dimming_available`), whenever
`update_display()` returns (trace `evs`), the PWM duty cycle left in effect
is the one derived from the brightness stored for tube index 0, the tube the
render loop processes last — whatever the other tubes' brightness fields
hold, since the quantification is over every buffer. -/
theorem brightness_tube0_wins (st : EasyNixie) (evs : List Event) (t0 : Tube)
    (havail : st.dimmingAvailable = true)
    (hlen : st.displayBuffer.length = st.numTubes)
    (ht0 : st.displayBuffer[0]? = some t0)
    (hev : updateDisplay st = some evs) :
    lastSetDuty evs = some (dutyCycle t0.dimming) := by
  unfold updateDisplay at hev
  rcases hloop : updateLoop st st.numTubes with _ | evs'
  · rw [hloop] at hev; simp at hev
  · rw [hloop, Option.map_some', Option.some.injEq] at hev
    subst hev
    have h0 : 0 < st.displayBuffer.length := by
      rcases hbuf : st.displayBuffer with _ | ⟨a, l⟩
      · rw [hbuf] at ht0; simp at ht0
      · simp [hbuf]
    rw [lastSetDuty_append,
      updateLoop_lastSetDuty st havail t0 ht0 st.numTubes evs' hloop (by omega)]
    rfl

/-- C2 witness: a fresh 1-tube chain; its trace's final duty cycle is the
one derived from tube 0's brightness (0). -/
theorem brightness_tube0_wins_witness :
    lastSetDuty [Event.setDuty 0, Event.shift 32, Event.shift 0, Event.latch] =
      some (dutyCycle 0) :=
  brightness_tube0_wins (EasyNixie.init 1 true) _
    ⟨10, EASY_NIXIE_WHITE, true, false, 0⟩ rfl rfl rfl rfl

/-! ### Claim C8 -/

/-- The first `i` loop iterations raise exactly when a tube among buffer
indices `0, …, i-1` holds a negative digit. -/
lemma updateLoop_eq_none_iff (st : EasyNixie) :
    ∀ i, i ≤ st.displayBuffer.length →
      (updateLoop st i = none ↔ ∃ t ∈ st.displayBuffer.take i, t.number < 0) := by
  intro i
  induction i with
  | zero => intro _; simp [updateLoop]
  | succ i ih =>
    intro hle
    have hi : i < st.displayBuffer.length := by omega
    have ht : st.displayBuffer[i]? = some st.displayBuffer[i] := List.getElem?_eq_getElem hi
    have htk : st.displayBuffer.take (i + 1) =
        st.displayBuffer.take i ++ [st.displayBuffer[i]] := by
      rw [List.take_succ, ht]
      rfl
    rw [updateLoop_succ, ht, Option.some_bind]
    simp only [htk]
    constructor
    · intro hnone
      rcases hsend : sendTubeData st.displayBuffer[i] with _ | sent
      · exact ⟨st.displayBuffer[i],
          List.mem_append_right _ (List.mem_singleton_self _),
          (sendTubeData_eq_none_iff _).mp hsend⟩
      · rw [hsend, Option.some_bind] at hnone
        rcases hrest : updateLoop st i with _ | rest
        · obtain ⟨t, htm, htn⟩ := (ih (by omega)).mp hrest
          exact ⟨t, List.mem_append_left _ htm, htn⟩
        · rw [hrest, Option.some_bind] at hnone
          simp at hnone
    · rintro ⟨t, htm, htn⟩
      rw [List.mem_append] at htm
      rcases htm with htm | htm
      · have hin : updateLoop st i = none := (ih (by omega)).mpr ⟨t, htm, htn⟩
        rcases hsend : sendTubeData st.displayBuffer[i] with _ | sent
        · rfl
        · rw [Option.some_bind, hin]
          rfl
      · rw [List.mem_singleton] at htm
        subst htm
        rw [(sendTubeData_eq_none_iff _).mpr htn]
        rfl

/-- C8: `set_tube` stores any digit value — negative included — without
validation (first conjunct); and the subsequent `update_display()` raises if
and only if some buffered digit is negative: the digit-byte shift
`1 << number` fails there, and under the precondition that every buffered
digit is `≥ 0` the encoding never fails (second conjunct). -/
theorem digit_validation (st : EasyNixie)
    (hlen : st.displayBuffer.length = st.numTubes) :
    (∀ (idx number color : ℤ) (voltage comma : Bool) (dimming : ℤ),
        0 ≤ idx → idx < (st.numTubes : ℤ) →
        (setTube st idx number color voltage comma dimming).displayBuffer[idx.toNat]? =
          some ⟨number, color, voltage, comma, dimming⟩) ∧
    (updateDisplay st = none ↔ ∃ t ∈ st.displayBuffer, t.number < 0) := by
  constructor
  · intro idx n c v k d h0 hlt
    unfold setTube
    rw [if_pos ⟨h0, hlt⟩]
    have hidx : idx.toNat < st.displayBuffer.length := by omega
    simp [List.getElem?_set_self hidx]
  · unfold updateDisplay
    rw [Option.map_eq_none']
    rw [updateLoop_eq_none_iff st st.numTubes (by omega),
      show st.displayBuffer.take st.numTubes = st.displayBuffer from by
        rw [← hlen]; exact List.take_length _]

/-- C8 witness: a buffered digit `-1` makes `update_display` raise. -/
theorem digit_validation_witness :
    updateDisplay
      { numTubes := 1
        displayBuffer := [⟨-1, EASY_NIXIE_WHITE, true, false, 255⟩]
        dimmingAvailable := true } = none :=
  (digit_validation _ rfl).2.mpr
    ⟨⟨-1, EASY_NIXIE_WHITE, true, false, 255⟩, by decide, by decide⟩

/-! ### Helper lemmas on `set_number`'s loops -/

/-- A fold whose step preserves the list length preserves the list length. -/
lemma length_foldl_preserve {α : Type} (f : List Tube → α → List Tube)
    (hf : ∀ b a, (f b a).length = b.length) :
    ∀ (l : List α) (b : List Tube), (List.foldl f b l).length = b.length := by
  intro l
  induction l with
  | nil => intro b; rfl
  | cons a tl ih => intro b; rw [List.foldl_cons, ih, hf]

lemma clearStep_length (color dimming : ℤ) (b : List Tube) (i : ℕ) :
    (clearStep color dimming b i).length = b.length := List.length_set ..

lemma fillStep_length (n : ℕ) (color dimming : ℤ) (b : List Tube) (p : ℕ × ℕ) :
    (fillStep n color dimming b p).length = b.length := by
  simp only [fillStep]
  split_ifs <;> simp

/-- Pointwise effect of the clearing loop: indices below `m` (and in range)
hold the blank entry, the rest are untouched. -/
lemma clearFold_getElem? (color dimming : ℤ) :
    ∀ (m : ℕ) (b : List Tube) (j : ℕ),
      ((List.range m).foldl (clearStep color dimming) b)[j]? =
        if j < m ∧ j < b.length then some (blankTube color dimming) else b[j]? := by
  intro m
  induction m with
  | zero => intro b j; simp
  | succ m ih =>
    intro b j
    rw [List.range_succ, List.foldl_append, List.foldl_cons, List.foldl_nil]
    rw [show clearStep color dimming
          (List.foldl (clearStep color dimming) b (List.range m)) m =
        (List.foldl (clearStep color dimming) b (List.range m)).set m
          (blankTube color dimming) from rfl]
    rw [List.getElem?_set, ih b j,
      length_foldl_preserve _ (clearStep_length color dimming) _ b]
    split_ifs <;>
      first
        | rfl
        | omega
        | (exact (List.getElem?_eq_none (by omega)).symm)

/-- Pointwise effect of one fill-loop iteration, with the character index
and position arithmetic made explicit. -/
lemma fillStep_getElem? (n : ℕ) (color dimming : ℤ) (b : List Tube) (i d j : ℕ) :
    (fillStep n color dimming b (i, d))[j]? =
      if i < n ∧ n - 1 - i = j ∧ j < b.length then some (digitTube d color dimming)
      else b[j]? := by
  show (if 0 ≤ (n : ℤ) - 1 - (i : ℤ) then
          b.set ((n : ℤ) - 1 - (i : ℤ)).toNat (digitTube d color dimming) else b)[j]? = _
  by_cases hpos : 0 ≤ (n : ℤ) - 1 - (i : ℤ)
  · rw [if_pos hpos, List.getElem?_set,
      show ((n : ℤ) - 1 - (i : ℤ)).toNat = n - 1 - i from by omega]
    split_ifs <;>
      first
        | rfl
        | omega
        | (exact (List.getElem?_eq_none (by omega)).symm)
  · rw [if_neg hpos, if_neg (by omega)]

/-- Pointwise effect of the fill loop over the enumerated (from `k`)
reversed digit string: position `j` receives the character at reversed
index `n - 1 - j` when that index falls inside the enumerated range, and is
untouched otherwise. -/
lemma fillFold_getElem? (n : ℕ) (color dimming : ℤ) :
    ∀ (l : List ℕ) (k : ℕ) (b : List Tube) (j : ℕ),
      ((List.enumFrom k l).foldl (fillStep n color dimming) b)[j]? =
        if j < n ∧ j < b.length ∧ k ≤ n - 1 - j ∧ n - 1 - j - k < l.length then
          (l[n - 1 - j - k]?.map fun d => digitTube d color dimming)
        else b[j]? := by
  intro l
  induction l with
  | nil =>
    intro k b j
    simp only [List.enumFrom_nil, List.foldl_nil, List.length_nil]
    rw [if_neg (by omega)]
  | cons d tl ih =>
    intro k b j
    rw [List.enumFrom_cons, List.foldl_cons, ih (k + 1) (fillStep n color dimming b (k, d)) j]
    simp only [fillStep_length, fillStep_getElem?, List.length_cons]
    by_cases h1 : j < n ∧ j < b.length ∧ k + 1 ≤ n - 1 - j ∧ n - 1 - j - (k + 1) < tl.length
    · rw [if_pos h1, if_pos (by omega : j < n ∧ j < b.length ∧ k ≤ n - 1 - j ∧
        n - 1 - j - k < tl.length + 1),
        show n - 1 - j - k = (n - 1 - j - (k + 1)) + 1 from by omega,
        List.getElem?_cons_succ]
    · rw [if_neg h1]
      by_cases h2 : k < n ∧ n - 1 - k = j ∧ j < b.length
      · rw [if_pos h2, if_pos (show j < n ∧ j < b.length ∧ k ≤ n - 1 - j ∧
          n - 1 - j - k < tl.length + 1 by omega),
          show n - 1 - j - k = 0 from by omega, List.getElem?_cons_zero]
        rfl
      · rw [if_neg h2]
        by_cases h3 : j < n ∧ j < b.length ∧ k ≤ n - 1 - j ∧ n - 1 - j - k < tl.length + 1
        · omega
        · rw [if_neg h3]

/-! ### Claim C6 -/

/-- C6: when the decimal digit count of `abs(number)` exceeds `num_tubes`,
`set_number` (a total function — nothing is raised) fills the whole buffer
with exactly the last `num_tubes` decimal digits, in order; the excess
leading digits are dropped, not wrapped.  (The `leading_zeros` flag is
irrelevant here, so the statement covers both values.) -/
theorem setNumber_overflow (st : EasyNixie) (number color dimming : ℤ) (lz : Bool)
    (hlen : st.displayBuffer.length = st.numTubes)
    (hover : st.numTubes < (numStr number.natAbs).length) :
    (setNumber st number color lz dimming).displayBuffer =
      ((numStr number.natAbs).drop ((numStr number.natAbs).length - st.numTubes)).map
        (fun d => digitTube d color dimming) := by
  unfold setNumber
  simp only [Nat.sub_eq_zero_of_le (Nat.le_of_lt hover), List.range_zero,
    List.foldl_nil, ite_self]
  apply List.ext_getElem?
  intro j
  rw [List.enum_eq_enumFrom, fillFold_getElem?, List.getElem?_map,
    clearFold_getElem?,
    length_foldl_preserve _ (clearStep_length color dimming) _ st.displayBuffer,
    hlen]
  simp only [List.length_reverse, Nat.sub_zero, List.getElem?_drop]
  by_cases hj : j < st.numTubes
  · have hcond : j < st.numTubes ∧ j < st.numTubes ∧ 0 ≤ st.numTubes - 1 - j ∧
        st.numTubes - 1 - j < (numStr number.natAbs).length := by omega
    rw [if_pos hcond,
      List.getElem?_reverse
        (show st.numTubes - 1 - j < (numStr number.natAbs).length from by omega),
      show (numStr number.natAbs).length - 1 - (st.numTubes - 1 - j) =
        (numStr number.natAbs).length - st.numTubes + j from by omega]
  · have hc1 : ¬ (j < st.numTubes ∧ j < st.numTubes ∧ 0 ≤ st.numTubes - 1 - j ∧
        st.numTubes - 1 - j < (numStr number.natAbs).length) := by omega
    have hc2 : ¬ (j < st.numTubes ∧ j < st.numTubes) := by omega
    rw [if_neg hc1, if_neg hc2,
      List.getElem?_eq_none (show st.displayBuffer.length ≤ j from by omega),
      List.getElem?_eq_none
        (show (numStr number.natAbs).length ≤
          (numStr number.natAbs).length - st.numTubes + j from by omega)]
    rfl

/-- C6 witness: 137 on a 2-tube chain buffers exactly digits 3 and 7. -/
theorem setNumber_overflow_witness :
    (setNumber (EasyNixie.init 2 true) 137 EASY_NIXIE_WHITE false 255).displayBuffer =
      ((numStr (137 : ℤ).natAbs).drop ((numStr (137 : ℤ).natAbs).length - 2)).map
        (fun d => digitTube d EASY_NIXIE_WHITE 255) :=
  setNumber_overflow (EasyNixie.init 2 true) 137 EASY_NIXIE_WHITE 255 false
    (by decide) (by decide)

end EasyNixieSpec
